import Mathlib

/-!
Shallow embedding of the HLSDownloader segment pipeline
(src/pkg/hlsDownloader.go) and proofs about it.

Bytes are modelled as `Nat` values (meaningful values are < 256).
Go slice-index panics are modelled as `Option.none`.
-/

namespace HLSDownloader

/-- Source `pkcs5UnPadding` (hlsDownloader.go:539-543).
Go reads `origData[length-1]` (panics on an empty slice) and returns
`origData[:length-unPadding]` (panics when `unPadding > length`).
Both panics are modelled as `none`. -/
def pkcs5UnPadding (origData : List Nat) : Option (List Nat) :=
  match origData.getLast? with
  | none => none
  | some unPadding =>
    if unPadding ≤ origData.length then
      some (origData.take (origData.length - unPadding))
    else
      none

/-- Source constant `syncByte = uint8(71)` (hlsDownloader.go:320). -/
def syncByte : Nat := 71

/-- The sync-byte scan of `decrypt` (hlsDownloader.go:569-574): the loop
finds the first index `j` with `data[j] == syncByte` and keeps `data[j:]`;
if no byte matches, `data` is left unchanged. -/
def syncTrim (data : List Nat) : List Nat :=
  match data.findIdx? (fun b => b == syncByte) with
  | some j => data.drop j
  | none => data

/-- `binary.BigEndian.PutUint64` written into an 8-byte buffer
(used by `defaultIV`, hlsDownloader.go:603). -/
def putUint64BE (v : Nat) : List Nat :=
  [v / 2 ^ 56 % 256, v / 2 ^ 48 % 256, v / 2 ^ 40 % 256, v / 2 ^ 32 % 256,
   v / 2 ^ 24 % 256, v / 2 ^ 16 % 256, v / 2 ^ 8 % 256, v % 256]

/-- Source `defaultIV` (hlsDownloader.go:601-605): a 16-byte buffer, all
zero, whose bytes 8..15 receive the big-endian encoding of `seqID`. -/
def defaultIV (seqID : Nat) : List Nat :=
  List.replicate 8 0 ++ putUint64BE seqID

/-- Value of a byte list read as a big-endian integer (specification-side
reading function for `putUint64BE`). -/
def fromBigEndian (l : List Nat) : Nat :=
  l.foldl (fun acc b => acc * 256 + b) 0

/-- One CBC decryption pass (`cipher.NewCBCDecrypter(...).CryptBlocks`,
called at hlsDownloader.go:532-534): each 16-byte ciphertext block is
block-decrypted and xored with the previous ciphertext block (the IV for
the first block). `decBlock` abstracts the AES block decryption of
`crypto/aes`, which is outside this repository. -/
def cbcDecrypt (decBlock : List Nat → List Nat) (prev ct : List Nat) : List Nat :=
  if h : ct = [] then []
  else
    let b := ct.take 16
    List.zipWith Nat.xor (decBlock b) prev ++ cbcDecrypt decBlock b (ct.drop 16)
termination_by ct.length
decreasing_by
  simp only [List.length_drop]
  have : ct.length ≠ 0 := fun hz => h (List.eq_nil_of_length_eq_zero hz)
  omega

/-- Key lengths accepted by `aes.NewCipher`. -/
def validAESKeyLen (k : Nat) : Bool :=
  k == 16 || k == 24 || k == 32

/-- Source `decryptAES128` (hlsDownloader.go:526-537). `aes.NewCipher`
errors on an invalid key length; `iv[:blockSize]` and
`cipher.NewCBCDecrypter` panic when `len(iv) < 16`; `CryptBlocks` panics
when the ciphertext length is not a multiple of the block size. All of
these are modelled as `none`, as is the `pkcs5UnPadding` panic. -/
def decryptAES128 (decBlock : List Nat → List Nat → List Nat)
    (crypted key iv : List Nat) : Option (List Nat) :=
  if validAESKeyLen key.length then
    if 16 ≤ iv.length then
      if crypted.length % 16 == 0 then
        pkcs5UnPadding (cbcDecrypt (decBlock key) (iv.take 16) crypted)
      else none
    else none
  else none

/-- An HTTP response: status code, the status line text used by
`errors.New(res.Status)`, and the body bytes. -/
structure HttpResp where
  status : Nat
  statusText : String
  body : List Nat
deriving DecidableEq, Repr

/-- One issued HTTP request: which client executed it (clients are
identified by a numeric id; `http.DefaultClient` is id 0), the target
url, and the header set attached to the request. -/
structure HttpCall where
  clientId : Nat
  url : String
  header : List (String × String)
deriving DecidableEq, Repr

/-- Identity of the package-level `http.DefaultClient`. -/
def defaultClientId : Nat := 0

/-- The network: executing a request either fails with a transport error
message (`err.Error()`) or produces a response. -/
def Net : Type := HttpCall → Except String HttpResp

/-- The staging file system: a map from path to file bytes. -/
def Fs : Type := String → Option (List Nat)

/-- `os.RemoveAll(path)` on the staging file system. -/
def fsRemove (fs : Fs) (p : String) : Fs :=
  fun q => if q = p then none else fs q

/-- The fields of `m3u8.Key` the code reads: the (resolved) key URI and
the bytes of `[]byte(segment.Key.IV)`. -/
structure KeyInfo where
  URI : String
  IV : List Nat
deriving DecidableEq, Repr

/-- Source `segment` (embedding the `m3u8.MediaSegment` fields the code
reads) plus the staging `path` assigned at dispatch time. -/
structure segment where
  SeqId : Nat
  URI : String
  Key : Option KeyInfo
  path : String
deriving DecidableEq, Repr

/-- Source `getKey` (hlsDownloader.go:579-599): fetches the key bytes
with `client.Get(segment.Key.URI)` — the configured client, but a fresh
request carrying no configured header — and selects the IV: the
descriptor IV when non-empty, else `defaultIV(segment.SeqId)`.
Returns the result together with the list of issued HTTP calls.
`decrypt` only calls this when `segment.Key` is non-nil; the `none` key
case (a nil dereference in Go) returns `none` without a call. -/
def getKey (net : Net) (clientId : Nat) (seg : segment) :
    Option (List Nat × List Nat) × List HttpCall :=
  match seg.Key with
  | none => (none, [])
  | some k =>
    let call : HttpCall := { clientId := clientId, url := k.URI, header := [] }
    match net call with
    | .error _ => (none, [call])
    | .ok res =>
      if res.status ≠ 200 then (none, [call])
      else
        let iv := if k.IV.length = 0 then defaultIV seg.SeqId else k.IV
        (some (res.body, iv), [call])

/-- Source `decrypt` (hlsDownloader.go:545-577): read the staged file,
decrypt it when a key descriptor is present (fetching key and IV via
`getKey`), then drop any bytes before the first sync byte. `decBlock`
abstracts the AES block decryption keyed by the fetched key. -/
def decrypt (net : Net) (decBlock : List Nat → List Nat → List Nat)
    (fs : Fs) (clientId : Nat) (seg : segment) :
    Option (List Nat) × List HttpCall :=
  match fs seg.path with
  | none => (none, [])
  | some data =>
    match seg.Key with
    | none => (some (syncTrim data), [])
    | some _ =>
      match getKey net clientId seg with
      | (none, calls) => (none, calls)
      | (some (key, iv), calls) =>
        match decryptAES128 decBlock data key iv with
        | none => (none, calls)
        | some d => (some (syncTrim d), calls)

/-- The sort of `join` (hlsDownloader.go:133-135): `sort.Slice` with
`less i j := SeqId i < SeqId j` produces some permutation ordered by
`SeqId`; with the unique-id hypothesis of the claims that permutation is
unique, and we model it with insertion sort on `SeqId ≤ SeqId`. -/
def sortSegments (segs : List segment) : List segment :=
  List.insertionSort (fun a b => a.SeqId ≤ b.SeqId) segs

/-- The loop of `join` (hlsDownloader.go:137-151): for each segment in
sorted order, decrypt it, append the payload to the output file, and
`os.RemoveAll` its staging file. Returns the accumulated output bytes,
or `none` on the first decryption failure (file create/write errors,
which depend only on the output file, are not modelled). -/
def joinLoop (net : Net) (decBlock : List Nat → List Nat → List Nat)
    (clientId : Nat) : Fs → List segment → List Nat → Option (List Nat)
  | _, [], acc => some acc
  | fs, s :: rest, acc =>
    match (decrypt net decBlock fs clientId s).1 with
    | none => none
    | some d => joinLoop net decBlock clientId (fsRemove fs s.path) rest (acc ++ d)

/-- Source `join` (hlsDownloader.go:126-154): sort by `SeqId`, then
decrypt-append-delete each segment; the value is the byte content the
loop writes to the output file. -/
def join (net : Net) (decBlock : List Nat → List Nat → List Nat)
    (clientId : Nat) (fs : Fs) (segs : List segment) : Option (List Nat) :=
  joinLoop net decBlock clientId fs (sortSegments segs) []

/-- Specification-side reading: the concatenation of the decrypted,
sync-trimmed payloads of a segment list, all read against one fixed
staging file system, failing when any segment fails to decrypt. -/
def concatPayloads (net : Net) (decBlock : List Nat → List Nat → List Nat)
    (clientId : Nat) (fs : Fs) : List segment → Option (List Nat)
  | [] => some []
  | s :: rest =>
    match (decrypt net decBlock fs clientId s).1,
          concatPayloads net decBlock clientId fs rest with
    | some d, some r => some (d ++ r)
    | _, _ => none

/-- Example key URI used by concrete witnesses. -/
def exKeyURI : String := "https://example.com/key"

/-- Example segment URI used by concrete witnesses. -/
def exSegURI : String := "https://example.com/seg0.ts"

/-- Example staging path used by concrete witnesses. -/
def exPath : String := "/tmp/segments/seg7.ts"

/-- Example status text of a 200 response. -/
def exOKText : String := "200 OK"

/-- Example key descriptor with an explicit IV. -/
def exKeyWithIV : KeyInfo := { URI := exKeyURI, IV := List.replicate 16 5 }

/-- Example key descriptor without an explicit IV. -/
def exKeyNoIV : KeyInfo := { URI := exKeyURI, IV := [] }

/-- Example encrypted segment with an explicit IV. -/
def exSegWithIV : segment :=
  { SeqId := 7, URI := exSegURI, Key := some exKeyWithIV, path := exPath }

/-- Example encrypted segment without an explicit IV. -/
def exSegNoIV : segment :=
  { SeqId := 7, URI := exSegURI, Key := some exKeyNoIV, path := exPath }

/-- Example network answering every request with a 200 response whose
body is `[9, 9]`. -/
def exNet200 : Net :=
  fun _ => Except.ok { status := 200, statusText := exOKText, body := [9, 9] }

/-- Example staging path of the first plain witness segment. -/
def exPathA : String := "/tmp/segments/seg1.ts"

/-- Example staging path of the second plain witness segment. -/
def exPathB : String := "/tmp/segments/seg2.ts"

/-- First plain (unencrypted) witness segment, `SeqId = 1`. -/
def exSegA : segment :=
  { SeqId := 1, URI := exSegURI, Key := none, path := exPathA }

/-- Second plain (unencrypted) witness segment, `SeqId = 2`. -/
def exSegB : segment :=
  { SeqId := 2, URI := exSegURI, Key := none, path := exPathB }

/-- Example staging file system holding the two plain witness segments. -/
def exFs : Fs := fun q =>
  if q = exPathA then some [5, 71, 1]
  else if q = exPathB then some [71, 2]
  else none

/-- Trivial block decryption used where no segment is encrypted. -/
def exDecBlock : List Nat → List Nat → List Nat := fun _ b => b

/-- The configuration surface of a downloader instance that the HTTP
paths read: the manifest url and the injectable client (by id) and
header set, as set up by `New`/`SetClient`/`SetHeader`
(hlsDownloader.go:23-73). -/
structure hlsDownloader where
  url : String
  output : String
  clientId : Nat
  header : List (String × String)
  workers : Nat
deriving DecidableEq, Repr

/-- Source `getM3u8ListType` (hlsDownloader.go:451-474): builds the
request with the caller-supplied header but executes it with
`http.DefaultClient.Do` — not the configured client. The m3u8 decode of
the 200 body is external; the model stops at the raw response. Returns
the result and the issued calls. -/
def getM3u8ListType (net : Net) (url : String)
    (header : List (String × String)) : Except String HttpResp × List HttpCall :=
  let call : HttpCall := { clientId := defaultClientId, url := url, header := header }
  match net call with
  | .error e => (.error e, [call])
  | .ok res =>
    if res.status ≠ 200 then (.error res.statusText, [call])
    else (.ok res, [call])

/-- Source `downloadSegment` (hlsDownloader.go:156-183): GET the segment
URI with the configured client and header, require status 200, stream
the body to the staging path. Returns (error message if any, updated
staging file system, issued calls). `os.Create`/`io.Copy` failures on
the staging file are not modelled. -/
def downloadSegment (net : Net) (clientId : Nat)
    (header : List (String × String)) (fs : Fs) (seg : segment) :
    Option String × Fs × List HttpCall :=
  let call : HttpCall := { clientId := clientId, url := seg.URI, header := header }
  match net call with
  | .error e => (some e, fs, [call])
  | .ok res =>
    if res.status ≠ 200 then (some res.statusText, fs, [call])
    else (none, fun q => if q = seg.path then some res.body else fs q, [call])

/-- The calls of the three fetch kinds: the manifest fetch issued by
`Download → parseHLSSegments → getM3u8ListType(h.url, h.header)`, the
key fetch issued by `join → decrypt → getKey(segment, h.client)`, and a
segment fetch issued by the workers via `h.downloadSegment`. -/
def allFetchCalls (net : Net) (h : hlsDownloader) (fs : Fs)
    (seg : segment) : List HttpCall :=
  (getM3u8ListType net h.url h.header).2 ++
    (getKey net h.clientId seg).2 ++
    (downloadSegment net h.clientId h.header fs seg).2.2

/-- C7 as claimed: every issued fetch call uses the configured client
and the configured header set of the downloader instance. -/
def callsUseConfigured (h : hlsDownloader) (calls : List HttpCall) : Prop :=
  ∀ c ∈ calls, c.clientId = h.clientId ∧ c.header = h.header

/-- Events of one worker running `downloadSegments`
(hlsDownloader.go:185-213): receiving a segment from the queue, a
non-blocking read of the abort channel (`isAbort`), one call to
`downloadSegment` with its resulting error, a `time.Sleep`, sending a
`downloadResult`, and `close(wc.downloadResult)` on abort. -/
inductive WEv where
  | take (seqId : Nat)
  | check (abortSet : Bool)
  | att (seqId : Nat) (err : Option String)
  | sleepSec (secs : Nat)
  | emit (seqId : Nat) (err : Option String)
  | closeResults
deriving DecidableEq, Repr

/-- Source `maxAttempts := 3` (hlsDownloader.go:187). -/
def maxAttempts : Nat := 3

/-- The transient-error marker matched by `strings.Contains`
(hlsDownloader.go:201). -/
def connectionResetMsg : String := "connection reset by peer"

/-- `strings.Contains(s, sub)` for a non-empty `sub`: `sub` occurs in
`s` iff splitting on it yields more than one part. -/
def strContains (s sub : String) : Bool :=
  (s.splitOn sub).length != 1

/-- The inner retry loop of `downloadSegments` for one received segment
(hlsDownloader.go:189-211). `abortAt t` is the value the t-th abort
check of this worker reads (the abort channel is external input to the
worker); `oracle k` is the error of the k-th `downloadSegment` call for
this segment (`none` = success) — successive attempts may observe
different network outcomes. Returns the event trace, the next check
index, and whether the worker returned on abort. -/
def segLoop (abortAt : Nat → Bool) (oracle : Nat → Option String)
    (sid t k attempts : Nat) : List WEv × Nat × Bool :=
  if abortAt t then
    ([WEv.check true, WEv.closeResults], t + 1, true)
  else
    match oracle k with
    | none => ([WEv.check false, WEv.att sid none, WEv.emit sid none], t + 1, false)
    | some e =>
      if hres : strContains e connectionResetMsg = true ∧ attempts < maxAttempts then
        let r := segLoop abortAt oracle sid (t + 1) (k + 1) (attempts + 1)
        (WEv.check false :: WEv.att sid (some e) :: WEv.sleepSec 1 :: r.1, r.2)
      else
        ([WEv.check false, WEv.att sid (some e), WEv.emit sid (some e)], t + 1, false)
termination_by maxAttempts - attempts
decreasing_by
  simp_wf
  omega

/-- One worker of the pool (`downloadSegments`, hlsDownloader.go:185-213):
range over the queued items until the queue is exhausted or an abort is
observed. Each item carries its sequence id and its per-attempt outcome
oracle. -/
def workerRun (abortAt : Nat → Bool) :
    List (Nat × (Nat → Option String)) → Nat → List WEv
  | [], _ => []
  | (sid, oracle) :: rest, t =>
    let r := segLoop abortAt oracle sid t 0 0
    WEv.take sid :: (r.1 ++ if r.2.2 then [] else workerRun abortAt rest r.2.1)

/-- Recognizer of download-attempt events. -/
def isAtt : WEv → Bool
  | WEv.att _ _ => true
  | _ => false

/-- Recognizer of sleep events. -/
def isSleep : WEv → Bool
  | WEv.sleepSec _ => true
  | _ => false

/-- Number of download attempts in a trace. -/
def countAtt (tr : List WEv) : Nat := tr.countP isAtt

/-- Number of sleeps in a trace. -/
def countSleep (tr : List WEv) : Nat := tr.countP isSleep

/-- Every sleep in the trace lasts exactly 1 second. -/
def sleepsAllOne (tr : List WEv) : Bool :=
  tr.all fun e =>
    match e with
    | WEv.sleepSec n => n == 1
    | _ => true

/-- An abort input that is never set. -/
def noAbort : Nat → Bool := fun _ => false

/-- Example attempt oracle: the first two attempts fail with a
connection reset, the third succeeds. -/
def exResetOracle : Nat → Option String :=
  fun n => if n < 2 then some connectionResetMsg else none

/-- Events the select loop of `processSegments` (hlsDownloader.go:257-270)
can receive: the all-workers-finished signal, or one `downloadResult`. -/
inductive CoordEvent where
  | success
  | result (seqId : Nat) (err : Option String)
deriving DecidableEq, Repr

/-- Outcome of the Coordinator loop: `ret` is `some none` for a nil
return, `some (some e)` for an error return, `none` when the event
stream ran out (the real loop would still be blocked in its select);
`consumed` counts received events, `aborts` counts executions of
`close(wc.abort)`, `increments` counts progress-bar increments. -/
structure CoordOut where
  ret : Option (Option String)
  consumed : Nat
  aborts : Nat
  increments : Nat
deriving DecidableEq, Repr

/-- The select loop of `processSegments` (hlsDownloader.go:257-270) over
the sequence of events it receives: on `success` return nil; on an
error result close the abort channel and return that error at once; on
an ok result increment the bar and loop. -/
def coordLoop : List CoordEvent → CoordOut
  | [] => { ret := none, consumed := 0, aborts := 0, increments := 0 }
  | CoordEvent.success :: _ =>
    { ret := some none, consumed := 1, aborts := 0, increments := 0 }
  | CoordEvent.result _ none :: rest =>
    let r := coordLoop rest
    { ret := r.ret, consumed := r.consumed + 1, aborts := r.aborts,
      increments := r.increments + 1 }
  | CoordEvent.result _ (some e) :: _ =>
    { ret := some (some e), consumed := 1, aborts := 1, increments := 0 }

/-- Phase of the feeder `prepareSegments` (hlsDownloader.go:225-235)
within its loop: about to test the loop condition / abort, ready to
send the current segment, or returned. -/
inductive FPhase where
  | needItem
  | ready
  | done
deriving DecidableEq, Repr

/-- Feeder state: next segment index, phase, and whether the abort
channel has been closed. -/
structure FState where
  idx : Nat
  phase : FPhase
  abort : Bool
deriving DecidableEq, Repr

/-- Atomic actions of the feeder interleaved with the Coordinator
closing the abort channel (`close(wc.abort)`, hlsDownloader.go:263). -/
inductive FAct where
  | checkOk
  | checkAbort
  | send (i : Nat)
  | closeQueue
  | abortSet
deriving DecidableEq, Repr

/-- Small-step semantics of `prepareSegments` over `n` segments,
interleaved with the abort-setting step of the Coordinator. Each loop
iteration is two atomic actions — the non-blocking `isAbort` read, then
the blocking channel send — because `close(wc.abort)` can interleave
between them. `checkAbort` and `closeQueue` model the two exits, both
closing the queue (the latter via the deferred close). -/
inductive FStep (n : Nat) : FState → FAct → FState → Prop where
  | finish (a : Bool) :
      FStep n ⟨n, FPhase.needItem, a⟩ FAct.closeQueue ⟨n, FPhase.done, a⟩
  | chkOk (i : Nat) : i < n →
      FStep n ⟨i, FPhase.needItem, false⟩ FAct.checkOk ⟨i, FPhase.ready, false⟩
  | chkAb (i : Nat) : i < n →
      FStep n ⟨i, FPhase.needItem, true⟩ FAct.checkAbort ⟨i, FPhase.done, true⟩
  | send (i : Nat) (a : Bool) :
      FStep n ⟨i, FPhase.ready, a⟩ (FAct.send i) ⟨i + 1, FPhase.needItem, a⟩
  | abortSet (i : Nat) (p : FPhase) :
      FStep n ⟨i, p, false⟩ FAct.abortSet ⟨i, p, true⟩

/-- Reflexive-transitive closure of `FStep`, recording the action
trace. -/
inductive FReach (n : Nat) : FState → List FAct → FState → Prop where
  | nil (s : FState) : FReach n s [] s
  | cons {s s2 s3 : FState} {a : FAct} {tr : List FAct} :
      FStep n s a s2 → FReach n s2 tr s3 → FReach n s (a :: tr) s3

/-- Initial feeder state. -/
def feederInit : FState := ⟨0, FPhase.needItem, false⟩

/-- Number of dispatches in a feeder trace. -/
def countSends : List FAct → Nat
  | [] => 0
  | FAct.send _ :: tr => countSends tr + 1
  | _ :: tr => countSends tr

/-- Number of dispatches occurring after the abort signal is set. -/
def sendsAfterAbortSet : List FAct → Nat
  | [] => 0
  | FAct.abortSet :: tr => countSends tr
  | _ :: tr => sendsAfterAbortSet tr

/-- Number of dispatches occurring after the feeder observes the abort
signal. -/
def sendsAfterCheckAbort : List FAct → Nat
  | [] => 0
  | FAct.checkAbort :: tr => countSends tr
  | _ :: tr => sendsAfterCheckAbort tr

/-- Scanner for the worker trace: accepts iff between any two `take`
events there is an abort check; the flag records a `take` with no check
yet. Returns the final flag, or `none` on a violation. -/
def ckTakeRun : Bool → List WEv → Option Bool
  | flag, [] => some flag
  | flag, WEv.take _ :: tr => if flag then none else ckTakeRun true tr
  | _, WEv.check _ :: tr => ckTakeRun false tr
  | flag, _ :: tr => ckTakeRun flag tr

/-- Head of a worker trace is an abort check. -/
def headIsCheck : List WEv → Bool
  | WEv.check _ :: _ => true
  | _ => false

/-- Scanner for the worker trace: accepts iff every sleep is preceded
by an abort check since the last take or sleep, and immediately
followed by an abort check. The flag records whether a check has
occurred since the last take or sleep. -/
def ckSleepRun : Bool → List WEv → Option Bool
  | flag, [] => some flag
  | _, WEv.check _ :: tr => ckSleepRun true tr
  | _, WEv.take _ :: tr => ckSleepRun false tr
  | flag, WEv.sleepSec _ :: tr =>
    if flag && headIsCheck tr then ckSleepRun false tr else none
  | flag, _ :: tr => ckSleepRun flag tr

/-- Outcomes of the collaborator steps `Download` sequences
(hlsDownloader.go:92-124): the manifest parse, `os.MkdirAll(h.path)`,
`os.MkdirTemp`, `processSegments` and `join`, each given abstractly as
its result. -/
structure DEnv where
  parseSegs : Except String (List segment)
  mkdirErr : Option String
  mkdirTempRes : Except String String
  processErr : Option String
  joinRes : Except String String

/-- Result of `Download`: the returned value or error, whether the
staging directory was created, and whether the deferred
`os.RemoveAll(h.tmpDir)` ran before returning. -/
structure DownloadOut where
  res : Except String String
  tmpCreated : Bool
  tmpRemoved : Bool
deriving Repr

/-- Source `Download` (hlsDownloader.go:92-124) control flow: fail fast
on parse or directory errors; once `os.MkdirTemp` succeeds, register
`defer os.RemoveAll(h.tmpDir)` so that every later return — the
`processSegments` error (including the abort-triggered one), the `join`
error, and success — removes the staging directory. -/
def Download (env : DEnv) : DownloadOut :=
  match env.parseSegs with
  | .error err => { res := .error err, tmpCreated := false, tmpRemoved := false }
  | .ok _ =>
    match env.mkdirErr with
    | some err => { res := .error err, tmpCreated := false, tmpRemoved := false }
    | none =>
      match env.mkdirTempRes with
      | .error err => { res := .error err, tmpCreated := false, tmpRemoved := false }
      | .ok _ =>
        match env.processErr with
        | some err => { res := .error err, tmpCreated := true, tmpRemoved := true }
        | none =>
          match env.joinRes with
          | .error err => { res := .error err, tmpCreated := true, tmpRemoved := true }
          | .ok fp => { res := .ok fp, tmpCreated := true, tmpRemoved := true }

/-- Example error message. -/
def exErrMsg : String := "500 Internal Server Error"

/-- Example `Download` environment: staging directory created, then the
fetch phase fails (the abort-triggered error path). -/
def exDEnv : DEnv :=
  { parseSegs := Except.ok [exSegA, exSegB], mkdirErr := none,
    mkdirTempRes := Except.ok exPath, processErr := some exErrMsg,
    joinRes := Except.error exErrMsg }

/-- Example manifest url. -/
def exManifestURL : String := "https://example.com/playlist.m3u8"

/-- Example output path. -/
def exOutput : String := "/home/user/out.ts"

/-- Example header name. -/
def exHdrName : String := "User-Agent"

/-- Example header value. -/
def exHdrVal : String := "spec2proof"

/-- Example downloader with a non-default client (id 1) and a non-empty
header set. -/
def exDownloader : hlsDownloader :=
  { url := exManifestURL, output := exOutput, clientId := 1,
    header := [(exHdrName, exHdrVal)], workers := 5 }

end HLSDownloader

namespace HLSDownloader

/-- C5: for a non-empty buffer whose last byte has value `n ≤ length`,
`pkcs5UnPadding` returns the buffer with exactly its last `n` bytes
removed. -/
theorem pkcs5UnPadding_removes_last_n (l : List Nat) (n : Nat)
    (hlast : l.getLast? = some n) (hle : n ≤ l.length) :
    ∃ kept removed : List Nat,
      pkcs5UnPadding l = some kept ∧
      l = kept ++ removed ∧
      removed.length = n ∧
      kept.length = l.length - n := by
  refine ⟨l.take (l.length - n), l.drop (l.length - n), ?_, ?_, ?_, ?_⟩
  · simp [pkcs5UnPadding, hlast, hle]
  · exact (List.take_append_drop _ l).symm
  · simp only [List.length_drop]
    omega
  · simp [List.length_take]

/-- C5 witness: `[10, 20, 30, 2, 2]` loses exactly its last two bytes. -/
theorem pkcs5UnPadding_removes_last_n_witness :
    ∃ kept removed : List Nat,
      pkcs5UnPadding [10, 20, 30, 2, 2] = some kept ∧
      [10, 20, 30, 2, 2] = kept ++ removed ∧
      removed.length = 2 ∧
      kept.length = [10, 20, 30, 2, 2].length - 2 :=
  pkcs5UnPadding_removes_last_n [10, 20, 30, 2, 2] 2 (by decide) (by decide)

/-- C9: `pkcs5UnPadding` has no defined result on an empty buffer or when
the last byte exceeds the buffer length (the Go code would panic there),
and `decryptAES128` does not shield it: an empty ciphertext always yields
an undefined unpadding step. -/
theorem pkcs5UnPadding_undefined_cases :
    pkcs5UnPadding [] = none ∧
    (∀ (l : List Nat) (n : Nat), l.getLast? = some n → l.length < n →
      pkcs5UnPadding l = none) ∧
    (∀ (decBlock : List Nat → List Nat → List Nat) (key iv : List Nat),
      decryptAES128 decBlock [] key iv = none) := by
  refine ⟨rfl, ?_, ?_⟩
  · intro l n hlast hlt
    simp [pkcs5UnPadding, hlast]
    omega
  · intro decBlock key iv
    unfold decryptAES128
    split
    · split
      · simp [cbcDecrypt, pkcs5UnPadding]
      · rfl
    · rfl

/-- C10: when the sync byte 0x47 occurs nowhere in the payload, the
sync-byte scan of `decrypt` returns the payload unchanged; leading bytes
are dropped only when some byte equals 0x47. -/
theorem syncTrim_id_of_not_mem (data : List Nat)
    (h : syncByte ∉ data) :
    syncTrim data = data := by
  have hnone : data.findIdx? (fun b => b == syncByte) = none := by
    rw [List.findIdx?_eq_none_iff]
    intro x hx
    have hne : x ≠ syncByte := fun hxe => h (hxe ▸ hx)
    simp [hne]
  unfold syncTrim
  rw [hnone]

/-- C10 witness: a concrete payload without 0x47 is unchanged. -/
theorem syncTrim_id_of_not_mem_witness :
    syncTrim [1, 2, 3, 70, 72] = [1, 2, 3, 70, 72] :=
  syncTrim_id_of_not_mem [1, 2, 3, 70, 72] (by decide)

/-- `decrypt` reads the staging file system only at the path of its own
segment. -/
theorem decrypt_fs_congr (net : Net) (decBlock : List Nat → List Nat → List Nat)
    (cid : Nat) (fs fs2 : Fs) (s : segment) (h : fs s.path = fs2 s.path) :
    (decrypt net decBlock fs cid s).1 = (decrypt net decBlock fs2 cid s).1 := by
  unfold decrypt
  rw [h]

/-- `concatPayloads` only depends on the staging file system at the
paths of its segments. -/
theorem concatPayloads_congr (net : Net) (decBlock : List Nat → List Nat → List Nat)
    (cid : Nat) (fs fs2 : Fs) :
    ∀ l : List segment, (∀ s ∈ l, fs s.path = fs2 s.path) →
      concatPayloads net decBlock cid fs l = concatPayloads net decBlock cid fs2 l := by
  intro l
  induction l with
  | nil => intro _; rfl
  | cons s rest ih =>
    intro hall
    have hs := hall s (List.mem_cons_self s rest)
    have hrest := ih fun s2 hs2 => hall s2 (List.mem_cons_of_mem s hs2)
    simp only [concatPayloads, decrypt_fs_congr net decBlock cid fs fs2 s hs, hrest]

/-- The decrypt-append-delete loop of `join` computes, over segments
with pairwise distinct staging paths, exactly the accumulator followed
by the concatenation of the payloads read against the initial staging
file system. -/
theorem joinLoop_eq_concatPayloads (net : Net)
    (decBlock : List Nat → List Nat → List Nat) (cid : Nat) :
    ∀ (l : List segment) (fs : Fs) (acc : List Nat),
      (l.map segment.path).Nodup →
      joinLoop net decBlock cid fs l acc =
        (concatPayloads net decBlock cid fs l).map (fun r => acc ++ r) := by
  intro l
  induction l with
  | nil => intro fs acc _; simp [joinLoop, concatPayloads]
  | cons s rest ih =>
    intro fs acc hnd
    have hnd2 : (rest.map segment.path).Nodup := (List.nodup_cons.mp hnd).2
    have hnotmem : s.path ∉ rest.map segment.path := (List.nodup_cons.mp hnd).1
    cases hd : (decrypt net decBlock fs cid s).1 with
    | none => simp [joinLoop, concatPayloads, hd]
    | some d =>
      have hfs : ∀ s2 ∈ rest, fsRemove fs s.path s2.path = fs s2.path := by
        intro s2 hs2
        have : s2.path ≠ s.path := by
          intro he
          exact hnotmem (he ▸ List.mem_map_of_mem segment.path hs2)
        simp [fsRemove, this]
      have hcc := concatPayloads_congr net decBlock cid (fsRemove fs s.path) fs rest hfs
      have hstep : joinLoop net decBlock cid fs (s :: rest) acc =
          joinLoop net decBlock cid (fsRemove fs s.path) rest (acc ++ d) := by
        rw [joinLoop, hd]
      rw [hstep, ih (fsRemove fs s.path) (acc ++ d) hnd2, hcc]
      cases hrest : concatPayloads net decBlock cid fs rest with
      | none => simp [concatPayloads, hd, hrest]
      | some r => simp [concatPayloads, hd, hrest]

/-- A `SeqId`-sorted list with pairwise distinct ids is strictly
sorted. -/
theorem pairwise_lt_of_le_nodup :
    ∀ l : List segment, (l.map segment.SeqId).Nodup →
      l.Pairwise (fun a b => a.SeqId ≤ b.SeqId) →
      l.Pairwise (fun a b => a.SeqId < b.SeqId) := by
  intro l
  induction l with
  | nil => intro _ _; exact List.Pairwise.nil
  | cons s rest ih =>
    intro hnd hp
    rcases List.pairwise_cons.mp hp with ⟨hhead, htail⟩
    rw [List.map_cons, List.nodup_cons] at hnd
    rcases hnd with ⟨hnm, hnd2⟩
    refine List.pairwise_cons.mpr ⟨?_, ih hnd2 htail⟩
    intro b hb
    have hne : s.SeqId ≠ b.SeqId := by
      intro he
      exact hnm (he ▸ List.mem_map_of_mem segment.SeqId hb)
    exact lt_of_le_of_ne (hhead b hb) hne

/-- `sortSegments` output is `SeqId`-sorted and a permutation of its
input. -/
theorem sortSegments_sorted_perm (segs : List segment) :
    (sortSegments segs).Pairwise (fun a b => a.SeqId ≤ b.SeqId) ∧
      (sortSegments segs).Perm segs := by
  haveI : IsTotal segment (fun a b => a.SeqId ≤ b.SeqId) :=
    ⟨fun a b => Nat.le_total a.SeqId b.SeqId⟩
  haveI : IsTrans segment (fun a b => a.SeqId ≤ b.SeqId) :=
    ⟨fun _ _ _ => Nat.le_trans⟩
  exact ⟨List.sorted_insertionSort _ segs, List.perm_insertionSort _ segs⟩

/-- Two permutation-equal segment lists with pairwise distinct ids sort
to the same list. -/
theorem sortSegments_eq_of_perm (segs2 segs : List segment)
    (hperm : segs2.Perm segs) (hseq : (segs.map segment.SeqId).Nodup) :
    sortSegments segs2 = sortSegments segs := by
  haveI : IsAntisymm segment (fun a b => a.SeqId < b.SeqId) :=
    ⟨fun a b h1 h2 => absurd (Nat.lt_trans h1 h2) (Nat.lt_irrefl _)⟩
  have hseq2 : (segs2.map segment.SeqId).Nodup :=
    ((hperm.map segment.SeqId).nodup_iff).mpr hseq
  have hp : (sortSegments segs2).Perm (sortSegments segs) :=
    ((sortSegments_sorted_perm segs2).2.trans hperm).trans
      (sortSegments_sorted_perm segs).2.symm
  have hs2 : (sortSegments segs2).Pairwise (fun a b => a.SeqId < b.SeqId) :=
    pairwise_lt_of_le_nodup _
      (((sortSegments_sorted_perm segs2).2.map segment.SeqId).nodup_iff.mpr hseq2)
      (sortSegments_sorted_perm segs2).1
  have hs1 : (sortSegments segs).Pairwise (fun a b => a.SeqId < b.SeqId) :=
    pairwise_lt_of_le_nodup _
      (((sortSegments_sorted_perm segs).2.map segment.SeqId).nodup_iff.mpr hseq)
      (sortSegments_sorted_perm segs).1
  exact List.eq_of_perm_of_sorted hp hs2 hs1

/-- C1: for segments with pairwise distinct `SeqId`s (and the pairwise
distinct staging paths the pipeline assigns them), the bytes `join`
writes are exactly the concatenation of each segment's decrypted,
sync-trimmed payload in strictly ascending `SeqId` order, and the output
is invariant under any permutation of the input list (the order staging
files were produced). -/
theorem join_is_ordered_concat (net : Net)
    (decBlock : List Nat → List Nat → List Nat) (cid : Nat) (fs : Fs)
    (segs : List segment)
    (hseq : (segs.map segment.SeqId).Nodup)
    (hpath : (segs.map segment.path).Nodup) :
    join net decBlock cid fs segs =
      concatPayloads net decBlock cid fs (sortSegments segs) ∧
    (sortSegments segs).Pairwise (fun a b => a.SeqId < b.SeqId) ∧
    (sortSegments segs).Perm segs ∧
    (∀ segs2 : List segment, segs2.Perm segs →
      join net decBlock cid fs segs2 = join net decBlock cid fs segs) := by
  have hperm := (sortSegments_sorted_perm segs).2
  have hpath2 : ((sortSegments segs).map segment.path).Nodup :=
    ((hperm.map segment.path).nodup_iff).mpr hpath
  refine ⟨?_, ?_, hperm, ?_⟩
  · rw [join, joinLoop_eq_concatPayloads net decBlock cid (sortSegments segs) fs [] hpath2]
    have hid : (fun r : List Nat => [] ++ r) = id := funext fun r => by simp
    rw [hid, Option.map_id]
    rfl
  · exact pairwise_lt_of_le_nodup _
      ((hperm.map segment.SeqId).nodup_iff.mpr hseq)
      (sortSegments_sorted_perm segs).1
  · intro segs2 h2
    rw [join, join, sortSegments_eq_of_perm segs2 segs h2 hseq]

/-- C1 witness: two concrete staged segments given in reversed order. -/
theorem join_is_ordered_concat_witness :
    join exNet200 exDecBlock 0 exFs [exSegB, exSegA] =
      concatPayloads exNet200 exDecBlock 0 exFs (sortSegments [exSegB, exSegA]) ∧
    (sortSegments [exSegB, exSegA]).Pairwise (fun a b => a.SeqId < b.SeqId) ∧
    (sortSegments [exSegB, exSegA]).Perm [exSegB, exSegA] ∧
    (∀ segs2 : List segment, segs2.Perm [exSegB, exSegA] →
      join exNet200 exDecBlock 0 exFs segs2 =
        join exNet200 exDecBlock 0 exFs [exSegB, exSegA]) :=
  join_is_ordered_concat exNet200 exDecBlock 0 exFs [exSegB, exSegA]
    (by decide) (by decide)

/-- C9 witness: a concrete buffer whose last byte (9) exceeds its length
has no defined unpadding. -/
theorem pkcs5UnPadding_undefined_cases_witness :
    pkcs5UnPadding [1, 2, 9] = none :=
  pkcs5UnPadding_undefined_cases.2.1 [1, 2, 9] 9 (by decide) (by decide)

/-- C7 counterexample: with client id 1 and a non-empty header set
configured, the issued fetch calls do not all use the configured client
and header — the manifest fetch runs on `http.DefaultClient` (id 0) and
the key fetch carries no header. -/
theorem fetch_calls_counterexample :
    ¬ callsUseConfigured exDownloader
        (allFetchCalls exNet200 exDownloader exFs exSegWithIV) := by
  intro hall
  have hmem : HttpCall.mk defaultClientId exDownloader.url exDownloader.header ∈
      allFetchCalls exNet200 exDownloader exFs exSegWithIV := by
    simp [allFetchCalls, getM3u8ListType, getKey, downloadSegment, exNet200,
      exSegWithIV, exKeyWithIV, exDownloader]
  have hcid := (hall _ hmem).1
  simp [defaultClientId, exDownloader] at hcid

/-- C7 amended: the segment fetch uses the configured client and the
configured header; the key fetch uses the configured client but an
empty header set; the manifest fetch uses the configured header but the
package default client. -/
theorem fetch_calls_amended (net : Net) (h : hlsDownloader) (fs : Fs)
    (seg : segment) (k : KeyInfo) (hk : seg.Key = some k) :
    (getM3u8ListType net h.url h.header).2 =
      [{ clientId := defaultClientId, url := h.url, header := h.header }] ∧
    (getKey net h.clientId seg).2 =
      [{ clientId := h.clientId, url := k.URI, header := [] }] ∧
    (downloadSegment net h.clientId h.header fs seg).2.2 =
      [{ clientId := h.clientId, url := seg.URI, header := h.header }] := by
  refine ⟨?_, ?_, ?_⟩
  · simp only [getM3u8ListType]
    cases hnet : net { clientId := defaultClientId, url := h.url, header := h.header } with
    | error e => simp [hnet]
    | ok res =>
      by_cases hst : res.status = 200 <;> simp [hnet, hst]
  · simp only [getKey, hk]
    cases hnet : net { clientId := h.clientId, url := k.URI, header := [] } with
    | error e => simp [hnet]
    | ok res =>
      by_cases hst : res.status = 200 <;> simp [hnet, hst]
  · simp only [downloadSegment]
    cases hnet : net { clientId := h.clientId, url := seg.URI, header := h.header } with
    | error e => simp [hnet]
    | ok res =>
      by_cases hst : res.status = 200 <;> simp [hnet, hst]

/-- C7 witness: the amended call shapes at the concrete example
downloader, network, staging state and encrypted segment. -/
theorem fetch_calls_amended_witness :
    (getM3u8ListType exNet200 exDownloader.url exDownloader.header).2 =
      [{ clientId := defaultClientId, url := exDownloader.url,
         header := exDownloader.header }] ∧
    (getKey exNet200 exDownloader.clientId exSegWithIV).2 =
      [{ clientId := exDownloader.clientId, url := exKeyWithIV.URI, header := [] }] ∧
    (downloadSegment exNet200 exDownloader.clientId exDownloader.header
        exFs exSegWithIV).2.2 =
      [{ clientId := exDownloader.clientId, url := exSegWithIV.URI,
         header := exDownloader.header }] :=
  fetch_calls_amended exNet200 exDownloader exFs exSegWithIV exKeyWithIV rfl

/-- Combined retry-loop facts, proved by induction on the remaining
retry budget: attempt count bounds, sleep shape, the
only-transient-retried property, and the final emitted result. -/
theorem segLoop_props (oracle : Nat → Option String) (sid : Nat) :
    ∀ (n t k a : Nat), maxAttempts - a ≤ n →
      countAtt (segLoop noAbort oracle sid t k a).1 ≤ 1 + (maxAttempts - a) ∧
      1 ≤ countAtt (segLoop noAbort oracle sid t k a).1 ∧
      countSleep (segLoop noAbort oracle sid t k a).1 =
        countAtt (segLoop noAbort oracle sid t k a).1 - 1 ∧
      sleepsAllOne (segLoop noAbort oracle sid t k a).1 = true ∧
      (∀ j, j + 1 < countAtt (segLoop noAbort oracle sid t k a).1 →
        ∃ e, oracle (k + j) = some e ∧
          strContains e connectionResetMsg = true) ∧
      (segLoop noAbort oracle sid t k a).1.getLast? =
        some (WEv.emit sid
          (oracle (k + (countAtt (segLoop noAbort oracle sid t k a).1 - 1)))) := by
  intro n
  induction n with
  | zero =>
    intro t k a hn
    rw [segLoop]
    simp only [noAbort, Bool.false_eq_true, if_false]
    cases horacle : oracle k with
    | none =>
      simp [countAtt, countSleep, sleepsAllOne, isAtt, isSleep, horacle]
    | some e =>
      have hcond : ¬(strContains e connectionResetMsg = true ∧ a < maxAttempts) := by
        intro hc
        omega
      simp [hcond, countAtt, countSleep, sleepsAllOne, isAtt, isSleep, horacle]
  | succ n ih =>
    intro t k a hn
    rw [segLoop]
    simp only [noAbort, Bool.false_eq_true, if_false]
    cases horacle : oracle k with
    | none =>
      simp [countAtt, countSleep, sleepsAllOne, isAtt, isSleep, horacle]
    | some e =>
      by_cases hcond : strContains e connectionResetMsg = true ∧ a < maxAttempts
      · rcases ih (t + 1) (k + 1) (a + 1) (by omega) with
          ⟨ih1, ih2, ih3, ih4, ih5, ih6⟩
        have hne : (segLoop noAbort oracle sid (t + 1) (k + 1) (a + 1)).1 ≠ [] := by
          intro hnil
          rw [hnil] at ih2
          simp [countAtt] at ih2
        dsimp only
        rw [dif_pos hcond]
        set tr2 := (segLoop noAbort oracle sid (t + 1) (k + 1) (a + 1)).1 with htr2
        have hAtt : countAtt (WEv.check false :: WEv.att sid (some e) ::
            WEv.sleepSec 1 :: tr2) = countAtt tr2 + 1 := by
          simp [countAtt, isAtt]
        have hSleep : countSleep (WEv.check false :: WEv.att sid (some e) ::
            WEv.sleepSec 1 :: tr2) = countSleep tr2 + 1 := by
          simp [countSleep, isSleep]
        refine ⟨?_, ?_, ?_, ?_, ?_, ?_⟩
        · rw [hAtt]
          omega
        · rw [hAtt]
          omega
        · rw [hAtt, hSleep]
          omega
        · simp [sleepsAllOne] at ih4 ⊢
          exact ih4
        · intro j hj
          rw [hAtt] at hj
          cases j with
          | zero => exact ⟨e, horacle, hcond.1⟩
          | succ j2 =>
            rcases ih5 j2 (by omega) with ⟨e2, he2, hc2⟩
            refine ⟨e2, ?_, hc2⟩
            rw [← he2]
            congr 1
            omega
        · have hlast : (WEv.check false :: WEv.att sid (some e) ::
              WEv.sleepSec 1 :: tr2).getLast? = tr2.getLast? := by
            rw [show WEv.check false :: WEv.att sid (some e) ::
              WEv.sleepSec 1 :: tr2 =
              [WEv.check false, WEv.att sid (some e), WEv.sleepSec 1] ++ tr2 from rfl]
            exact List.getLast?_append_of_ne_nil _ hne
          rw [hlast, ih6, hAtt]
          have hidx : k + 1 + (countAtt tr2 - 1) = k + (countAtt tr2 + 1 - 1) := by
            omega
          rw [hidx]
      · simp [hcond, countAtt, countSleep, sleepsAllOne, isAtt, isSleep, horacle]

/-- C3: per segment (abort never set), at most `maxAttempts = 3` retries
happen after the first attempt, every pair of consecutive attempts is
separated by exactly one 1-second sleep, every retried attempt failed
with an error containing the connection-reset marker (so a non-transient
failure is never retried — in particular a first non-transient failure
produces exactly one attempt and an immediate fatal result), and the
loop ends by emitting a Download Result carrying the outcome of the last
attempt. -/
theorem download_retry_policy (oracle : Nat → Option String) (sid t : Nat) :
    countAtt (segLoop noAbort oracle sid t 0 0).1 ≤ 1 + maxAttempts ∧
    maxAttempts = 3 ∧
    countSleep (segLoop noAbort oracle sid t 0 0).1 =
      countAtt (segLoop noAbort oracle sid t 0 0).1 - 1 ∧
    sleepsAllOne (segLoop noAbort oracle sid t 0 0).1 = true ∧
    (∀ j, j + 1 < countAtt (segLoop noAbort oracle sid t 0 0).1 →
      ∃ e, oracle j = some e ∧ strContains e connectionResetMsg = true) ∧
    (segLoop noAbort oracle sid t 0 0).1.getLast? =
      some (WEv.emit sid
        (oracle (countAtt (segLoop noAbort oracle sid t 0 0).1 - 1))) ∧
    (∀ e, oracle 0 = some e → strContains e connectionResetMsg = false →
      (segLoop noAbort oracle sid t 0 0).1 =
        [WEv.check false, WEv.att sid (some e), WEv.emit sid (some e)]) := by
  rcases segLoop_props oracle sid maxAttempts t 0 0 (by omega) with
    ⟨h1, _, h3, h4, h5, h6⟩
  refine ⟨by simpa using h1, rfl, h3, h4, ?_, by simpa using h6, ?_⟩
  · intro j hj
    simpa using h5 j hj
  · intro e he hc
    rw [segLoop]
    simp [noAbort, he, hc]

/-- C3 witness: the oracle failing twice with a connection reset and
then succeeding, at `sid = 5`. -/
theorem download_retry_policy_witness :
    countAtt (segLoop noAbort exResetOracle 5 0 0 0).1 ≤ 1 + maxAttempts ∧
    maxAttempts = 3 ∧
    countSleep (segLoop noAbort exResetOracle 5 0 0 0).1 =
      countAtt (segLoop noAbort exResetOracle 5 0 0 0).1 - 1 ∧
    sleepsAllOne (segLoop noAbort exResetOracle 5 0 0 0).1 = true ∧
    (∀ j, j + 1 < countAtt (segLoop noAbort exResetOracle 5 0 0 0).1 →
      ∃ e, exResetOracle j = some e ∧ strContains e connectionResetMsg = true) ∧
    (segLoop noAbort exResetOracle 5 0 0 0).1.getLast? =
      some (WEv.emit 5
        (exResetOracle (countAtt (segLoop noAbort exResetOracle 5 0 0 0).1 - 1))) ∧
    (∀ e, exResetOracle 0 = some e → strContains e connectionResetMsg = false →
      (segLoop noAbort exResetOracle 5 0 0 0).1 =
        [WEv.check false, WEv.att 5 (some e), WEv.emit 5 (some e)]) :=
  download_retry_policy exResetOracle 5 0

/-- The Coordinator loop returns the first error it receives after
consuming only the ok results before it: the abort channel is closed
exactly once and no later event is consumed. -/
theorem coordLoop_first_error (pre post : List CoordEvent) (sid : Nat) (e : String)
    (hpre : ∀ ev ∈ pre, ∃ s, ev = CoordEvent.result s none) :
    coordLoop (pre ++ CoordEvent.result sid (some e) :: post) =
      { ret := some (some e), consumed := pre.length + 1, aborts := 1,
        increments := pre.length } := by
  induction pre with
  | nil => simp [coordLoop]
  | cons ev rest ih =>
    rcases hpre ev (List.mem_cons_self _ _) with ⟨s, rfl⟩
    have hr := ih fun ev2 h2 => hpre ev2 (List.mem_cons_of_mem _ h2)
    simp [coordLoop, hr]

/-- From a state with the abort signal set, the feeder performs at most
one further dispatch — and that only if it was already past its abort
check, ready to send. -/
theorem freach_sends_of_abort (n : Nat) (s : FState) (tr : List FAct)
    (s2 : FState) (hreach : FReach n s tr s2) :
    s.abort = true →
    countSends tr ≤ (if s.phase = FPhase.ready then 1 else 0) := by
  induction hreach with
  | nil => intro _; simp [countSends]
  | cons hstep hrest ih =>
    intro habort
    cases hstep with
    | finish a =>
      have h2 := ih habort
      simp [countSends] at h2 ⊢
      omega
    | chkOk i hi => simp at habort
    | chkAb i hi =>
      have h2 := ih rfl
      simp [countSends] at h2 ⊢
      omega
    | send i a =>
      have h2 := ih habort
      simp [countSends] at h2 ⊢
      omega
    | abortSet i p => simp at habort

/-- In any feeder execution, at most one dispatch happens after the
abort signal is set. -/
theorem freach_sendsAfterAbortSet (n : Nat) (s : FState) (tr : List FAct)
    (s2 : FState) (hreach : FReach n s tr s2) :
    sendsAfterAbortSet tr ≤ 1 := by
  induction hreach with
  | nil => simp [sendsAfterAbortSet]
  | cons hstep hrest ih =>
    cases hstep with
    | abortSet i p =>
      have h2 := freach_sends_of_abort n _ _ _ hrest rfl
      simp [sendsAfterAbortSet]
      split at h2 <;> omega
    | finish a => simpa [sendsAfterAbortSet] using ih
    | chkOk i hi => simpa [sendsAfterAbortSet] using ih
    | chkAb i hi => simpa [sendsAfterAbortSet] using ih
    | send i a => simpa [sendsAfterAbortSet] using ih

/-- In any feeder execution, no dispatch happens after the feeder
observes the abort signal. -/
theorem freach_sendsAfterCheckAbort (n : Nat) (s : FState) (tr : List FAct)
    (s2 : FState) (hreach : FReach n s tr s2) :
    sendsAfterCheckAbort tr = 0 := by
  induction hreach with
  | nil => simp [sendsAfterCheckAbort]
  | cons hstep hrest ih =>
    cases hstep with
    | chkAb i hi =>
      have h2 := freach_sends_of_abort n _ _ _ hrest rfl
      simp [sendsAfterCheckAbort]
      simp at h2
      omega
    | finish a => simpa [sendsAfterCheckAbort] using ih
    | chkOk i hi => simpa [sendsAfterCheckAbort] using ih
    | send i a => simpa [sendsAfterCheckAbort] using ih
    | abortSet i p => simpa [sendsAfterCheckAbort] using ih

/-- C2 counterexample: with one segment and one worker still receiving,
the feeder can pass its abort check, have the Coordinator set the abort
signal, and still complete its blocked dispatch — one segment is
dispatched into the queue after the abort signal is set, refuting the
claim that no further segments are dispatched after the abort signal is
set. -/
theorem feeder_send_after_abort_counterexample :
    FReach 1 feederInit [FAct.checkOk, FAct.abortSet, FAct.send 0]
      ⟨1, FPhase.needItem, true⟩ ∧
    sendsAfterAbortSet [FAct.checkOk, FAct.abortSet, FAct.send 0] = 1 := by
  constructor
  · exact FReach.cons (FStep.chkOk 0 (by omega))
      (FReach.cons (FStep.abortSet 0 FPhase.ready)
        (FReach.cons (FStep.send 0 true) (FReach.nil _)))
  · rfl

/-- C2 amended: when the first error result arrives, the Coordinator
closes the abort channel (exactly once) and returns exactly that error
immediately — consuming no event beyond it, so it does not wait for
outstanding segments; and the feeder dispatches at most one further
segment after the abort signal is set (one already past its abort
check) and none after it observes the abort. -/
theorem coordinator_error_return_feeder_abort
    (pre post : List CoordEvent) (sid : Nat) (e : String)
    (hpre : ∀ ev ∈ pre, ∃ s, ev = CoordEvent.result s none) :
    coordLoop (pre ++ CoordEvent.result sid (some e) :: post) =
      { ret := some (some e), consumed := pre.length + 1, aborts := 1,
        increments := pre.length } ∧
    (∀ (n : Nat) (tr : List FAct) (s2 : FState),
      FReach n feederInit tr s2 →
      sendsAfterAbortSet tr ≤ 1 ∧ sendsAfterCheckAbort tr = 0) :=
  ⟨coordLoop_first_error pre post sid e hpre,
   fun n tr s2 h =>
     ⟨freach_sendsAfterAbortSet n _ tr s2 h,
      freach_sendsAfterCheckAbort n _ tr s2 h⟩⟩

/-- C2 witness: one ok result before the error, one undelivered result
after it. -/
theorem coordinator_error_return_feeder_abort_witness :
    coordLoop ([CoordEvent.result 0 none] ++
        CoordEvent.result 1 (some exHdrVal) :: [CoordEvent.result 2 none]) =
      { ret := some (some exHdrVal), consumed := [CoordEvent.result 0 none].length + 1,
        aborts := 1, increments := [CoordEvent.result 0 none].length } ∧
    (∀ (n : Nat) (tr : List FAct) (s2 : FState),
      FReach n feederInit tr s2 →
      sendsAfterAbortSet tr ≤ 1 ∧ sendsAfterCheckAbort tr = 0) :=
  coordinator_error_return_feeder_abort [CoordEvent.result 0 none]
    [CoordEvent.result 2 none] 1 exHdrVal
    (by
      intro ev hev
      rw [List.mem_singleton] at hev
      exact ⟨0, hev⟩)

/-- The Coordinator closes the abort channel at most once in any run
(it returns immediately after the close). -/
theorem coordLoop_aborts_le_one (evs : List CoordEvent) :
    (coordLoop evs).aborts ≤ 1 := by
  induction evs with
  | nil => simp [coordLoop]
  | cons ev rest ih =>
    cases ev with
    | success => simp [coordLoop]
    | result s err =>
      cases err with
      | none => simpa [coordLoop] using ih
      | some e => simp [coordLoop]

/-- No feeder-system step ever clears the abort signal: it is
monotonic. -/
theorem fstep_abort_mono (n : Nat) (s : FState) (a : FAct) (s2 : FState)
    (hstep : FStep n s a s2) : s.abort = true → s2.abort = true := by
  intro ha
  cases hstep <;> simp_all

/-- Every `segLoop` trace begins with an abort check. -/
theorem segLoop_headIsCheck (abortAt : Nat → Bool)
    (oracle : Nat → Option String) (sid t k a : Nat) :
    headIsCheck (segLoop abortAt oracle sid t k a).1 = true := by
  rw [segLoop]
  split
  · rfl
  · split
    · rfl
    · split
      · rfl
      · rfl

/-- `headIsCheck` only looks at the first event. -/
theorem headIsCheck_append (tr rest : List WEv) (h : headIsCheck tr = true) :
    headIsCheck (tr ++ rest) = true := by
  cases tr with
  | nil => simp [headIsCheck] at h
  | cons e tr2 =>
    cases e <;> simp_all [headIsCheck]

/-- Scanning a `segLoop` trace never sees a take, and always passes a
check, so the take scanner continues into the rest with a cleared
flag. -/
theorem segLoop_ckTake_cont (abortAt : Nat → Bool)
    (oracle : Nat → Option String) (sid : Nat) :
    ∀ (n t k a : Nat), maxAttempts - a ≤ n → ∀ (f : Bool) (rest : List WEv),
      ckTakeRun f ((segLoop abortAt oracle sid t k a).1 ++ rest) =
        ckTakeRun false rest := by
  intro n
  induction n with
  | zero =>
    intro t k a hn f rest
    rw [segLoop]
    by_cases habort : abortAt t = true
    · simp [habort, ckTakeRun]
    · simp only [habort, if_false, Bool.false_eq_true]
      cases horacle : oracle k with
      | none => simp [ckTakeRun]
      | some e =>
        have hcond : ¬(strContains e connectionResetMsg = true ∧ a < maxAttempts) := by
          intro hc
          omega
        simp [hcond, ckTakeRun]
  | succ n ih =>
    intro t k a hn f rest
    rw [segLoop]
    by_cases habort : abortAt t = true
    · simp [habort, ckTakeRun]
    · simp only [habort, if_false, Bool.false_eq_true]
      cases horacle : oracle k with
      | none => simp [ckTakeRun]
      | some e =>
        by_cases hcond : strContains e connectionResetMsg = true ∧ a < maxAttempts
        · dsimp only
          rw [dif_pos hcond]
          simp only [List.cons_append, ckTakeRun]
          exact ih (t + 1) (k + 1) (a + 1) (by omega) false rest
        · simp [hcond, ckTakeRun]

/-- Scanning a `segLoop` trace: every sleep inside it is preceded by a
check (since the last take or sleep) and followed immediately by a
check, and the trace leaves the sleep scanner with its flag set. -/
theorem segLoop_ckSleep_cont (abortAt : Nat → Bool)
    (oracle : Nat → Option String) (sid : Nat) :
    ∀ (n t k a : Nat), maxAttempts - a ≤ n → ∀ (f : Bool) (rest : List WEv),
      ckSleepRun f ((segLoop abortAt oracle sid t k a).1 ++ rest) =
        ckSleepRun true rest := by
  intro n
  induction n with
  | zero =>
    intro t k a hn f rest
    rw [segLoop]
    by_cases habort : abortAt t = true
    · simp [habort, ckSleepRun]
    · simp only [habort, if_false, Bool.false_eq_true]
      cases horacle : oracle k with
      | none => simp [ckSleepRun]
      | some e =>
        have hcond : ¬(strContains e connectionResetMsg = true ∧ a < maxAttempts) := by
          intro hc
          omega
        simp [hcond, ckSleepRun]
  | succ n ih =>
    intro t k a hn f rest
    rw [segLoop]
    by_cases habort : abortAt t = true
    · simp [habort, ckSleepRun]
    · simp only [habort, if_false, Bool.false_eq_true]
      cases horacle : oracle k with
      | none => simp [ckSleepRun]
      | some e =>
        by_cases hcond : strContains e connectionResetMsg = true ∧ a < maxAttempts
        · dsimp only
          rw [dif_pos hcond]
          simp only [List.cons_append, ckSleepRun]
          have hhead : headIsCheck
              ((segLoop abortAt oracle sid (t + 1) (k + 1) (a + 1)).1 ++ rest) = true :=
            headIsCheck_append _ _ (segLoop_headIsCheck abortAt oracle sid (t + 1) (k + 1) (a + 1))
          rw [if_pos (by simp [hhead])]
          exact ih (t + 1) (k + 1) (a + 1) (by omega) false rest
        · simp [hcond, ckSleepRun]

/-- Between any two consecutive takes of a worker there is an abort
check: the take scanner accepts every worker trace. -/
theorem workerRun_ckTake (abortAt : Nat → Bool) :
    ∀ (items : List (Nat × (Nat → Option String))) (t : Nat),
      ckTakeRun false (workerRun abortAt items t) = some false := by
  intro items
  induction items with
  | nil => intro t; rfl
  | cons item rest ih =>
    intro t
    rcases item with ⟨sid, oracle⟩
    rw [workerRun]
    rw [show ckTakeRun false (WEv.take sid ::
        ((segLoop abortAt oracle sid t 0 0).1 ++
          if (segLoop abortAt oracle sid t 0 0).2.2 then []
          else workerRun abortAt rest (segLoop abortAt oracle sid t 0 0).2.1)) =
      ckTakeRun true
        ((segLoop abortAt oracle sid t 0 0).1 ++
          if (segLoop abortAt oracle sid t 0 0).2.2 then []
          else workerRun abortAt rest (segLoop abortAt oracle sid t 0 0).2.1) from rfl]
    rw [segLoop_ckTake_cont abortAt oracle sid maxAttempts t 0 0 (by omega)]
    by_cases hb : (segLoop abortAt oracle sid t 0 0).2.2 = true
    · simp [hb, ckTakeRun]
    · simp only [hb, if_false, Bool.false_eq_true]
      exact ih _

/-- Every sleep of a worker trace is surrounded by abort checks: the
sleep scanner accepts every worker trace. -/
theorem workerRun_ckSleep (abortAt : Nat → Bool) :
    ∀ (items : List (Nat × (Nat → Option String))) (t : Nat) (f : Bool),
      (ckSleepRun f (workerRun abortAt items t)).isSome = true := by
  intro items
  induction items with
  | nil => intro t f; rfl
  | cons item rest ih =>
    intro t f
    rcases item with ⟨sid, oracle⟩
    rw [workerRun]
    rw [show ckSleepRun f (WEv.take sid ::
        ((segLoop abortAt oracle sid t 0 0).1 ++
          if (segLoop abortAt oracle sid t 0 0).2.2 then []
          else workerRun abortAt rest (segLoop abortAt oracle sid t 0 0).2.1)) =
      ckSleepRun false
        ((segLoop abortAt oracle sid t 0 0).1 ++
          if (segLoop abortAt oracle sid t 0 0).2.2 then []
          else workerRun abortAt rest (segLoop abortAt oracle sid t 0 0).2.1) from rfl]
    rw [segLoop_ckSleep_cont abortAt oracle sid maxAttempts t 0 0 (by omega)]
    by_cases hb : (segLoop abortAt oracle sid t 0 0).2.2 = true
    · simp [hb, ckSleepRun]
    · simp only [hb, if_false, Bool.false_eq_true]
      exact ih _ _

/-- C6: the abort signal is closed at most once by the Coordinator and
no step of the system ever clears it (monotonic); every worker, for any
abort schedule and any queue contents, performs a (non-blocking) abort
check between consecutive queue takes, and around every retry sleep: a
check since the last take or sleep before it, and a check immediately
after it. -/
theorem abort_monotonic_worker_observation :
    (∀ evs : List CoordEvent, (coordLoop evs).aborts ≤ 1) ∧
    (∀ (n : Nat) (s : FState) (a : FAct) (s2 : FState),
      FStep n s a s2 → s.abort = true → s2.abort = true) ∧
    (∀ (abortAt : Nat → Bool) (items : List (Nat × (Nat → Option String))) (t : Nat),
      ckTakeRun false (workerRun abortAt items t) = some false ∧
      (ckSleepRun false (workerRun abortAt items t)).isSome = true) :=
  ⟨coordLoop_aborts_le_one,
   fstep_abort_mono,
   fun abortAt items t =>
     ⟨workerRun_ckTake abortAt items t, workerRun_ckSleep abortAt items t false⟩⟩

/-- C6 witness: the abort-count bound at a concrete event list, the
monotonicity at a concrete step, and the worker scanners at a concrete
two-item queue with an abort set from the third check on. -/
theorem abort_monotonic_worker_observation_witness :
    (coordLoop [CoordEvent.result 0 none, CoordEvent.result 1 (some exHdrVal)]).aborts ≤ 1 ∧
    ((⟨2, FPhase.needItem, true⟩ : FState).abort = true) ∧
    ckTakeRun false
      (workerRun (fun t => 2 ≤ t) [(0, exResetOracle), (1, exResetOracle)] 0) =
      some false ∧
    (ckSleepRun false
      (workerRun (fun t => 2 ≤ t) [(0, exResetOracle), (1, exResetOracle)] 0)).isSome = true :=
  ⟨abort_monotonic_worker_observation.1 _,
   abort_monotonic_worker_observation.2.1 3 ⟨1, FPhase.ready, true⟩ (FAct.send 1)
     ⟨2, FPhase.needItem, true⟩ (FStep.send 1 true) rfl,
   (abort_monotonic_worker_observation.2.2 _ _ _).1,
   (abort_monotonic_worker_observation.2.2 _ _ _).2⟩

/-- C8: whenever `Download` reaches the successful creation of the
staging directory, the directory is removed before `Download` returns,
whatever the outcome of the remaining steps; and removal happens only
when the directory was created. -/
theorem download_cleanup (env : DEnv) (segs : List segment) (tmp : String)
    (hparse : env.parseSegs = .ok segs) (hmkdir : env.mkdirErr = none)
    (htmp : env.mkdirTempRes = .ok tmp) :
    (Download env).tmpCreated = true ∧
    (Download env).tmpRemoved = true ∧
    (∀ env2 : DEnv, (Download env2).tmpCreated = true →
      (Download env2).tmpRemoved = true) ∧
    (∀ env2 : DEnv, (Download env2).tmpRemoved = true →
      (Download env2).tmpCreated = true) := by
  have hall : ∀ env2 : DEnv, (Download env2).tmpCreated = (Download env2).tmpRemoved := by
    intro env2
    unfold Download
    rcases env2.parseSegs with err | segs2
    · rfl
    · rcases hm : env2.mkdirErr with _ | err
      · rcases ht : env2.mkdirTempRes with err | tmp2
        · rfl
        · rcases hp : env2.processErr with _ | err
          · rcases hj : env2.joinRes with err | fp <;> rfl
          · rfl
      · rfl
  have hcreated : (Download env).tmpCreated = true := by
    unfold Download
    rw [hparse, hmkdir, htmp]
    rcases hp : env.processErr with _ | err
    · rcases hj : env.joinRes with err | fp <;> rfl
    · rfl
  refine ⟨hcreated, ?_, ?_, ?_⟩
  · rw [← hall env]
    exact hcreated
  · intro env2 h2
    rw [← hall env2]
    exact h2
  · intro env2 h2
    rw [hall env2]
    exact h2

/-- C8 witness: the staging directory is created and then removed on
the abort-triggered fetch-error exit path. -/
theorem download_cleanup_witness :
    (Download exDEnv).tmpCreated = true ∧
    (Download exDEnv).tmpRemoved = true ∧
    (∀ env2 : DEnv, (Download env2).tmpCreated = true →
      (Download env2).tmpRemoved = true) ∧
    (∀ env2 : DEnv, (Download env2).tmpRemoved = true →
      (Download env2).tmpCreated = true) :=
  download_cleanup exDEnv [exSegA, exSegB] exPath rfl rfl rfl

/-- Reading the 8 bytes written by `PutUint64BE` back as a big-endian
integer recovers the value, for any value fitting in 64 bits. -/
theorem fromBigEndian_putUint64BE (v : Nat) (hv : v < 2 ^ 64) :
    fromBigEndian (putUint64BE v) = v := by
  simp only [putUint64BE, fromBigEndian, List.foldl]
  omega

/-- C4: on a successful key fetch, `getKey` uses the explicit descriptor
IV when one is present and otherwise `defaultIV(SeqId)`, a 16-byte
buffer with zero high 8 bytes and the big-endian `SeqId` in the low 8
bytes. -/
theorem getKey_iv_selection (net : Net) (cid : Nat) (seg : segment)
    (k : KeyInfo) (res : HttpResp)
    (hkey : seg.Key = some k)
    (hnet : net { clientId := cid, url := k.URI, header := [] } = .ok res)
    (hst : res.status = 200) :
    (k.IV ≠ [] → (getKey net cid seg).1 = some (res.body, k.IV)) ∧
    (k.IV = [] → (getKey net cid seg).1 = some (res.body, defaultIV seg.SeqId)) ∧
    (∀ n : Nat, n < 2 ^ 64 →
      (defaultIV n).length = 16 ∧
      (defaultIV n).take 8 = List.replicate 8 0 ∧
      fromBigEndian ((defaultIV n).drop 8) = n) := by
  refine ⟨?_, ?_, ?_⟩
  · intro hiv
    have hlen : k.IV.length ≠ 0 := by
      simpa [List.length_eq_zero] using hiv
    simp [getKey, hkey, hnet, hst, hlen]
  · intro hiv
    simp [getKey, hkey, hnet, hst, hiv]
  · intro n hn
    refine ⟨?_, ?_, ?_⟩
    · simp [defaultIV, putUint64BE]
    · rw [defaultIV, List.take_left']
      simp
    · rw [defaultIV, List.drop_left']
      · exact fromBigEndian_putUint64BE n hn
      · simp

/-- C4 witness: with an all-200 network, the explicit IV of
`exSegWithIV` is used, `exSegNoIV` falls back to `defaultIV 7`, and the
derived IV facts hold at `n = 7`. -/
theorem getKey_iv_selection_witness :
    ((exKeyWithIV.IV ≠ [] →
      (getKey exNet200 1 exSegWithIV).1 = some ([9, 9], exKeyWithIV.IV)) ∧
    (exKeyWithIV.IV = [] →
      (getKey exNet200 1 exSegWithIV).1 = some ([9, 9], defaultIV exSegWithIV.SeqId)) ∧
    (∀ n : Nat, n < 2 ^ 64 →
      (defaultIV n).length = 16 ∧
      (defaultIV n).take 8 = List.replicate 8 0 ∧
      fromBigEndian ((defaultIV n).drop 8) = n)) ∧
    (getKey exNet200 1 exSegNoIV).1 = some ([9, 9], defaultIV 7) := by
  constructor
  · exact getKey_iv_selection exNet200 1 exSegWithIV exKeyWithIV
      { status := 200, statusText := exOKText, body := [9, 9] }
      (by decide) rfl rfl
  · exact ((getKey_iv_selection exNet200 1 exSegNoIV exKeyNoIV
      { status := 200, statusText := exOKText, body := [9, 9] }
      (by decide) rfl rfl).2.1 rfl)

end HLSDownloader
